import Mathlib

/-!
Verification of the Nucleus append-only ledger core against its specification.

The Rust sources are shallowly embedded as executable Lean definitions:

* JSON values (`serde_json::Value`) become the inductive `Json`; numbers are
  modelled as integers (the claims under study do not involve floats).
* `serde_json::Map` is a BTreeMap, so objects iterate with byte-lexicographically
  sorted keys; the embedding keeps members as association lists and sorts by key
  wherever the Rust map iterates or `keys.sort()` is called.
* SHA-256 is modelled as an injective embedding of its input bytes
  (`Hash.digest preimage`): equality of digests corresponds to equality of the
  canonical bytes.  Raw hashes built from byte arrays (`Hash::from_bytes`) are a
  separate constructor assumed distinct from every digest (no known preimages).
  The chain algorithms only ever compare hashes for equality, so this preserves
  their behaviour exactly, idealising collision-freeness.
* Rust `&mut self` methods become functions returning the updated value; a
  method that can fail returns `Except` together with the (possibly partially
  updated) receiver, mirroring which fields were already written when the error
  path returned.
* `std::collections::HashMap` is modelled as an association list for content,
  with an explicit iteration-order parameter wherever the Rust code iterates a
  map, since Rust HashMap iteration order is unspecified and seed-dependent.
-/

namespace Nucleus

/-- JSON value, mirroring `serde_json::Value` (numbers restricted to integers). -/
inductive Json where
  | null
  | bool (b : Bool)
  | num (n : Int)
  | str (s : String)
  | arr (elems : List Json)
  | obj (members : List (String × Json))

mutual

def jsonBeq : Json → Json → Bool
  | .null, .null => true
  | .bool a, .bool b => a == b
  | .num a, .num b => a == b
  | .str a, .str b => a == b
  | .arr xs, .arr ys => jsonBeqList xs ys
  | .obj ms, .obj ns => jsonBeqMembers ms ns
  | _, _ => false

def jsonBeqList : List Json → List Json → Bool
  | [], [] => true
  | x :: xs, y :: ys => jsonBeq x y && jsonBeqList xs ys
  | _, _ => false

def jsonBeqMembers : List (String × Json) → List (String × Json) → Bool
  | [], [] => true
  | (k1, v1) :: ms, (k2, v2) :: ns => k1 == k2 && jsonBeq v1 v2 && jsonBeqMembers ms ns
  | _, _ => false

end

mutual

theorem jsonBeq_iff : ∀ a b, jsonBeq a b = true ↔ a = b
  | .null, .null => by simp [jsonBeq]
  | .null, .bool _ => by simp [jsonBeq]
  | .null, .num _ => by simp [jsonBeq]
  | .null, .str _ => by simp [jsonBeq]
  | .null, .arr _ => by simp [jsonBeq]
  | .null, .obj _ => by simp [jsonBeq]
  | .bool _, .null => by simp [jsonBeq]
  | .bool _, .bool _ => by simp [jsonBeq]
  | .bool _, .num _ => by simp [jsonBeq]
  | .bool _, .str _ => by simp [jsonBeq]
  | .bool _, .arr _ => by simp [jsonBeq]
  | .bool _, .obj _ => by simp [jsonBeq]
  | .num _, .null => by simp [jsonBeq]
  | .num _, .bool _ => by simp [jsonBeq]
  | .num _, .num _ => by simp [jsonBeq]
  | .num _, .str _ => by simp [jsonBeq]
  | .num _, .arr _ => by simp [jsonBeq]
  | .num _, .obj _ => by simp [jsonBeq]
  | .str _, .null => by simp [jsonBeq]
  | .str _, .bool _ => by simp [jsonBeq]
  | .str _, .num _ => by simp [jsonBeq]
  | .str _, .str _ => by simp [jsonBeq]
  | .str _, .arr _ => by simp [jsonBeq]
  | .str _, .obj _ => by simp [jsonBeq]
  | .arr _, .null => by simp [jsonBeq]
  | .arr _, .bool _ => by simp [jsonBeq]
  | .arr _, .num _ => by simp [jsonBeq]
  | .arr _, .str _ => by simp [jsonBeq]
  | .arr xs, .arr ys => by simp [jsonBeq, jsonBeqList_iff xs ys]
  | .arr _, .obj _ => by simp [jsonBeq]
  | .obj _, .null => by simp [jsonBeq]
  | .obj _, .bool _ => by simp [jsonBeq]
  | .obj _, .num _ => by simp [jsonBeq]
  | .obj _, .str _ => by simp [jsonBeq]
  | .obj _, .arr _ => by simp [jsonBeq]
  | .obj ms, .obj ns => by simp [jsonBeq, jsonBeqMembers_iff ms ns]

theorem jsonBeqList_iff : ∀ xs ys, jsonBeqList xs ys = true ↔ xs = ys
  | [], [] => by simp [jsonBeqList]
  | [], _ :: _ => by simp [jsonBeqList]
  | _ :: _, [] => by simp [jsonBeqList]
  | x :: xs, y :: ys => by
    simp [jsonBeqList, jsonBeq_iff x y, jsonBeqList_iff xs ys]

theorem jsonBeqMembers_iff : ∀ ms ns, jsonBeqMembers ms ns = true ↔ ms = ns
  | [], [] => by simp [jsonBeqMembers]
  | [], _ :: _ => by simp [jsonBeqMembers]
  | _ :: _, [] => by simp [jsonBeqMembers]
  | (k1, v1) :: ms, (k2, v2) :: ns => by
    simp [jsonBeqMembers, jsonBeq_iff v1 v2, jsonBeqMembers_iff ms ns, and_assoc]

end

instance : DecidableEq Json := fun a b => decidable_of_iff _ (jsonBeq_iff a b)

/-- Byte-wise lexicographic comparison of character lists.  Rust compares
`String` by UTF-8 bytes; comparing Unicode code points gives the same order
because UTF-8 encoding is monotone in the code point. -/
def charListLe : List Char → List Char → Bool
  | [], _ => true
  | _ :: _, [] => false
  | c :: cs, d :: ds =>
    if c.toNat < d.toNat then true
    else if d.toNat < c.toNat then false
    else charListLe cs ds

/-- `a <= b` for Rust strings (byte-wise lexicographic order). -/
def strLe (a b : String) : Bool := charListLe a.data b.data

/-- Order on key-value pairs that compares only the key, as the Rust
`keys.sort()` call does. -/
def KeyLe {α : Type} (a b : String × α) : Prop := strLe a.1 b.1 = true

instance {α : Type} : DecidableRel (@KeyLe α) := fun _ _ => decEq _ _

theorem charListLe_total : ∀ a b, charListLe a b = true ∨ charListLe b a = true
  | [], _ => .inl rfl
  | _ :: _, [] => .inr rfl
  | c :: cs, d :: ds => by
    rcases Nat.lt_trichotomy c.toNat d.toNat with h | h | h
    · exact .inl (by simp [charListLe, h])
    · have hdc : ¬ d.toNat < c.toNat := by omega
      have hcd : ¬ c.toNat < d.toNat := by omega
      rcases charListLe_total cs ds with ih | ih
      · exact .inl (by simp [charListLe, hcd, hdc, ih])
      · exact .inr (by simp [charListLe, hcd, hdc, h, ih])
    · exact .inr (by simp [charListLe, h])

theorem charListLe_trans :
    ∀ a b c, charListLe a b = true → charListLe b c = true → charListLe a c = true
  | [], _, _, _, _ => rfl
  | _ :: _, [], _, hab, _ => by simp [charListLe] at hab
  | _ :: _, _ :: _, [], _, hbc => by simp [charListLe] at hbc
  | x :: xs, y :: ys, z :: zs, hab, hbc => by
    simp only [charListLe] at hab hbc ⊢
    rcases Nat.lt_trichotomy x.toNat y.toNat with hxy | hxy | hxy <;>
      rcases Nat.lt_trichotomy y.toNat z.toNat with hyz | hyz | hyz
    · simp [show x.toNat < z.toNat by omega]
    · simp [show x.toNat < z.toNat by omega]
    · simp [show ¬ y.toNat < z.toNat by omega, show z.toNat < y.toNat by omega] at hbc
    · simp [show x.toNat < z.toNat by omega]
    · simp only [show ¬ x.toNat < y.toNat by omega, show ¬ y.toNat < x.toNat by omega,
        if_false] at hab
      simp only [show ¬ y.toNat < z.toNat by omega, show ¬ z.toNat < y.toNat by omega,
        if_false] at hbc
      simp only [show ¬ x.toNat < z.toNat by omega, show ¬ z.toNat < x.toNat by omega,
        if_false]
      exact charListLe_trans xs ys zs hab hbc
    · simp [show ¬ y.toNat < z.toNat by omega, show z.toNat < y.toNat by omega] at hbc
    · simp [show ¬ x.toNat < y.toNat by omega, show y.toNat < x.toNat by omega] at hab
    · simp [show ¬ x.toNat < y.toNat by omega, show y.toNat < x.toNat by omega] at hab
    · simp [show ¬ x.toNat < y.toNat by omega, show y.toNat < x.toNat by omega] at hab

instance {α : Type} : IsTotal (String × α) KeyLe :=
  ⟨fun a b => charListLe_total a.1.data b.1.data⟩

instance {α : Type} : IsTrans (String × α) KeyLe :=
  ⟨fun _ _ _ h1 h2 => charListLe_trans _ _ _ h1 h2⟩

/-- Stable sort of key-value pairs by key: the model of `keys.sort()` followed
by in-order lookup in `write_canonical_object` (the map has unique keys, so
sorting the pairs and sorting the key list agree), and of BTreeMap iteration
order in `serde_json`. -/
def sortByKey {α : Type} (l : List (String × α)) : List (String × α) :=
  l.insertionSort KeyLe

/-! ### Canonical serialization

`canonicalize.rs` (`canonicalize_json` / `write_canonical`) and the
`serde_json` compact serializer used by `serialization/canonical.rs` share the
same structure — sorted object keys, no whitespace — and differ only in which
characters they escape: `escape_json_string` escapes every Unicode control
character (`char::is_control`, i.e. U+0000..U+001F and U+007F..U+009F), while
`serde_json` escapes only U+0000..U+001F.  The writer below is parametrised by
the character escaper. -/

/-- Lowercase hexadecimal digit, as produced by the `\x7b:04x\x7d` format. -/
def hexDigitChar (n : Nat) : Char :=
  if n < 10 then Char.ofNat (48 + n) else Char.ofNat (87 + n)

/-- `\uXXXX` escape with four lowercase hex digits. -/
def uEscape (c : Char) : String :=
  "\\u" ++ String.mk [hexDigitChar (c.toNat / 4096 % 16), hexDigitChar (c.toNat / 256 % 16),
    hexDigitChar (c.toNat / 16 % 16), hexDigitChar (c.toNat % 16)]

/-- Rust `char::is_control`: the Unicode Cc category. -/
def isRustControl (c : Char) : Bool :=
  c.toNat < 32 || (127 ≤ c.toNat && c.toNat ≤ 159)

/-- `escape_json_string` from `canonicalize.rs`, applied to one character. -/
def escapeCharJcs (c : Char) : String :=
  if c = Char.ofNat 34 then "\\\""
  else if c = Char.ofNat 92 then "\\\\"
  else if c = Char.ofNat 8 then "\\b"
  else if c = Char.ofNat 12 then "\\f"
  else if c = Char.ofNat 10 then "\\n"
  else if c = Char.ofNat 13 then "\\r"
  else if c = Char.ofNat 9 then "\\t"
  else if isRustControl c then uEscape c
  else String.singleton c

/-- The escaping performed by `serde_json`: quote, backslash, and the
control characters below U+0020 (short escapes for `\b \t \n \f \r`). -/
def escapeCharSerde (c : Char) : String :=
  if c = Char.ofNat 34 then "\\\""
  else if c = Char.ofNat 92 then "\\\\"
  else if c.toNat < 32 then
    if c = Char.ofNat 8 then "\\b"
    else if c = Char.ofNat 9 then "\\t"
    else if c = Char.ofNat 10 then "\\n"
    else if c = Char.ofNat 12 then "\\f"
    else if c = Char.ofNat 13 then "\\r"
    else uEscape c
  else String.singleton c

def concatAll : List String → String
  | [] => ""
  | s :: rest => s ++ concatAll rest

/-- Escape a whole string, character by character. -/
def escapeStr (esc : Char → String) (s : String) : String :=
  concatAll (s.data.map esc)

/-- Comma-separated concatenation (`if i > 0 \x7b write ","; \x7d` in the Rust loops). -/
def joinComma : List String → String
  | [] => ""
  | [s] => s
  | s :: rest => s ++ "," ++ joinComma rest

/-- One rendered object member: `"key":value`. -/
def renderPair (esc : Char → String) (kv : String × String) : String :=
  "\"" ++ escapeStr esc kv.1 ++ "\":" ++ kv.2

mutual

/-- `write_canonical`: renders a value with no whitespace; object members are
emitted in sorted key order.  The Rust code sorts the key list of each object just
before writing it and renders values in that order; the model renders the
members first and then performs the same stable key sort on the rendered
pairs, which yields identical bytes since rendering is pure and key-blind. -/
def writeVal (esc : Char → String) : Json → String
  | .null => "null"
  | .bool b => if b then "true" else "false"
  | .num n => toString n
  | .str s => "\"" ++ escapeStr esc s ++ "\""
  | .arr es => "[" ++ joinComma (renderElems esc es) ++ "]"
  | .obj ms => "\x7b" ++ joinComma ((sortByKey (renderMembers esc ms)).map (renderPair esc)) ++ "\x7d"

def renderElems (esc : Char → String) : List Json → List String
  | [] => []
  | e :: es => writeVal esc e :: renderElems esc es

def renderMembers (esc : Char → String) : List (String × Json) → List (String × String)
  | [] => []
  | (k, v) :: ms => (k, writeVal esc v) :: renderMembers esc ms

end

/-- `canonicalize_json` from `packages/nucleus-core-rs/src/canonicalize.rs`. -/
def canonicalize_json (v : Json) : String := writeVal escapeCharJcs v

/-- `serde_json::to_vec` on a BTreeMap-backed `Value`: compact, sorted keys. -/
def serializeValue (v : Json) : String := writeVal escapeCharSerde v

/-! ### Key-order normalization (spec side)

`Json.keySort` recursively sorts the members of every object by key with the same
stable byte-order sort the writers use.  Two values are deep-equal up to
object-key order exactly when their normal forms coincide; this is the
formalization of the quantifier in testable property §8.1. -/

mutual

def keySort : Json → Json
  | .null => .null
  | .bool b => .bool b
  | .num n => .num n
  | .str s => .str s
  | .arr es => .arr (keySortList es)
  | .obj ms => .obj (sortByKey (keySortMembers ms))

def keySortList : List Json → List Json
  | [] => []
  | e :: es => keySort e :: keySortList es

def keySortMembers : List (String × Json) → List (String × Json)
  | [] => []
  | (k, v) :: ms => (k, keySort v) :: keySortMembers ms

end

/-- Deep equality modulo object-key order: equality of key-sorted normal
forms.  (serde_json objects have unique keys, for which this is exactly
"same key set, deep-equal values, in any member order".) -/
def DeepEqualUpToKeyOrder (a b : Json) : Prop := keySort a = keySort b

theorem renderMembers_eq_map (esc : Char → String) :
    ∀ l : List (String × Json),
      renderMembers esc l = l.map (fun kv => (kv.1, writeVal esc kv.2))
  | [] => rfl
  | (k, v) :: ms => by simp [renderMembers, renderMembers_eq_map esc ms]

theorem sortByKey_map_snd {α β : Type} (f : α → β) (l : List (String × α)) :
    (sortByKey l).map (fun kv => (kv.1, f kv.2)) =
      sortByKey (l.map (fun kv => (kv.1, f kv.2))) := by
  exact List.map_insertionSort KeyLe KeyLe _ l (fun a _ b _ => Iff.rfl)

theorem sortByKey_idem {α : Type} (l : List (String × α)) :
    sortByKey (sortByKey l) = sortByKey l :=
  List.Sorted.insertionSort_eq (List.sorted_insertionSort KeyLe l)

mutual

theorem writeVal_keySort (esc : Char → String) :
    ∀ v, writeVal esc (keySort v) = writeVal esc v
  | .null => rfl
  | .bool _ => rfl
  | .num _ => rfl
  | .str _ => rfl
  | .arr es => by
    simp only [keySort, writeVal, renderElems_keySortList esc es]
  | .obj ms => by
    simp only [keySort, writeVal]
    rw [renderMembers_eq_map esc (sortByKey (keySortMembers ms)),
      sortByKey_map_snd (writeVal esc) (keySortMembers ms),
      sortByKey_idem, ← renderMembers_eq_map esc (keySortMembers ms),
      renderMembers_keySortMembers esc ms]

theorem renderElems_keySortList (esc : Char → String) :
    ∀ es, renderElems esc (keySortList es) = renderElems esc es
  | [] => rfl
  | e :: es => by
    simp only [keySortList, renderElems, writeVal_keySort esc e,
      renderElems_keySortList esc es]

theorem renderMembers_keySortMembers (esc : Char → String) :
    ∀ ms, renderMembers esc (keySortMembers ms) = renderMembers esc ms
  | [] => rfl
  | (k, v) :: ms => by
    simp only [keySortMembers, renderMembers, writeVal_keySort esc v,
      renderMembers_keySortMembers esc ms]

end

/-- The canonical writers depend only on the key-sorted normal form. -/
theorem canonicalize_json_keySort (v : Json) :
    canonicalize_json (keySort v) = canonicalize_json v :=
  writeVal_keySort escapeCharJcs v

/-! ### Record, Hash, content addressing (`record.rs`, `hash.rs`,
`serialization/canonical.rs`) -/

/-- `Hash`: a SHA-256 digest.  `digest` identifies a digest by the 32 hashed
hashed bytes, via their preimage (the canonical serialization); `ofBytes` is `Hash::from_bytes`
on raw bytes.  Constructor distinctness idealizes collision-freeness and
preimage-resistance; the source only ever compares hashes for equality. -/
inductive Hash where
  | digest (preimage : String)
  | ofBytes (bytes : List Nat)
deriving DecidableEq

inductive RecordError where
  | invalidId (msg : String)
  | invalidStream (msg : String)
  | invalidTimestamp (msg : String)
  | invalidPayload (msg : String)
deriving DecidableEq

/-- `Record` from `record.rs`; `timestamp` is a `u64` (overflow plays no role
in any claim, so it is a `Nat`). -/
structure Record where
  id : String
  stream : String
  timestamp : Nat
  payload : Json
  meta : Option Json
deriving DecidableEq

def Json.isObject : Json → Bool
  | .obj _ => true
  | _ => false

def Json.isArray : Json → Bool
  | .arr _ => true
  | _ => false

/-- `Record::validate`. -/
def Record.validate (r : Record) : Except RecordError Unit :=
  if r.id = "" then .error (.invalidId "ID cannot be empty")
  else if r.stream = "" then .error (.invalidStream "Stream cannot be empty")
  else if r.timestamp = 0 then .error (.invalidTimestamp "Timestamp cannot be zero")
  else if ¬ (r.payload.isObject || r.payload.isArray) then
    .error (.invalidPayload "Payload must be object or array")
  else .ok ()

/-- First binding for a key among object members (serde maps have unique
keys). -/
def lookupMember : List (String × Json) → String → Option Json
  | [], _ => none
  | (k, v) :: rest, key => if k = key then some v else lookupMember rest key

/-- `Value::get` on an object, `None` on any other value. -/
def Json.get : Json → String → Option Json
  | .obj ms, key => lookupMember ms key
  | _, _ => none

/-- The canonical field map built by `serialize_canonical`: exactly
`id, stream, timestamp, payload` and, only when present, `meta` (insertion
order is irrelevant — the writer sorts keys like the BTreeMap does). -/
def recordFields (r : Record) : List (String × Json) :=
  [("id", .str r.id), ("stream", .str r.stream), ("timestamp", .num (r.timestamp : Int)),
    ("payload", r.payload)] ++
    (match r.meta with
     | some m => [("meta", m)]
     | none => [])

/-- `serialize_canonical` from `serialization/canonical.rs`. -/
def serialize_canonical (r : Record) : String :=
  serializeValue (.obj (recordFields r))

/-- `compute_hash`: SHA-256 of the canonical serialization (digest modelled by
its preimage). -/
def compute_hash (r : Record) : Hash :=
  .digest (serialize_canonical r)

/-! ### Length bookkeeping for the meta-sensitivity half of §8.1/§8.2 -/

theorem joinComma_length :
    ∀ l : List String, (joinComma l).length = (l.map String.length).sum + (l.length - 1)
  | [] => rfl
  | [s] => by simp [joinComma]
  | s :: t :: rest => by
    have ih := joinComma_length (t :: rest)
    have hc : ("," : String).length = 1 := rfl
    simp only [joinComma, String.length_append, hc, List.map_cons, List.sum_cons,
      List.length_cons] at ih ⊢
    omega

theorem renderMembers_length (esc : Char → String) (ms : List (String × Json)) :
    (renderMembers esc ms).length = ms.length := by
  rw [renderMembers_eq_map]; exact List.length_map ms _

/-- Length of a rendered object: braces, the members (in any order — the sort
is a permutation), and the commas. -/
theorem writeVal_obj_length (esc : Char → String) (ms : List (String × Json)) :
    (writeVal esc (.obj ms)).length =
      2 + ((renderMembers esc ms).map (fun kv => (renderPair esc kv).length)).sum +
        (ms.length - 1) := by
  have hperm : List.Perm (sortByKey (renderMembers esc ms)) (renderMembers esc ms) :=
    List.perm_insertionSort KeyLe (renderMembers esc ms)
  have hsum : ((sortByKey (renderMembers esc ms)).map
        (fun kv => (renderPair esc kv).length)).sum =
      ((renderMembers esc ms).map (fun kv => (renderPair esc kv).length)).sum :=
    (hperm.map _).sum_eq
  have hlen : (sortByKey (renderMembers esc ms)).length = ms.length := by
    rw [hperm.length_eq, renderMembers_length]
  have hl : ("\x7b" : String).length = 1 := rfl
  have hr : ("\x7d" : String).length = 1 := rfl
  simp only [writeVal, String.length_append, joinComma_length, List.map_map,
    List.length_map, Function.comp_def, hl, hr]
  rw [show (fun kv => (renderPair esc kv).length) = String.length ∘ renderPair esc from rfl] at hsum
  simp only [Function.comp_def] at hsum
  rw [hsum, hlen]
  omega

theorem renderPair_length_pos (esc : Char → String) (kv : String × String) :
    1 ≤ (renderPair esc kv).length := by
  have hq : ("\"" : String).length = 1 := rfl
  simp only [renderPair, String.length_append, hq]
  omega

/-- Adding the `meta` member strictly lengthens the canonical bytes. -/
theorem serialize_canonical_meta_longer (r : Record) (m : Json) :
    (serialize_canonical { r with meta := none }).length <
      (serialize_canonical { r with meta := some m }).length := by
  have hfields : recordFields { r with meta := some m } =
      recordFields { r with meta := none } ++ [("meta", m)] := by
    simp [recordFields]
  unfold serialize_canonical serializeValue
  rw [hfields, writeVal_obj_length, writeVal_obj_length,
    renderMembers_eq_map, renderMembers_eq_map]
  simp only [List.map_append, List.map_cons, List.map_nil, List.sum_append,
    List.length_append, List.sum_cons, List.sum_nil, List.length_cons, List.length_nil]
  have hp := renderPair_length_pos escapeCharSerde ("meta", writeVal escapeCharSerde m)
  have hb : (recordFields { r with meta := none }).length = 4 := by simp [recordFields]
  rw [hb]
  omega

/-- Strings of different lengths differ. -/
theorem ne_of_length_lt {a b : String} (h : a.length < b.length) : b ≠ a := by
  intro hab
  rw [hab] at h
  exact Nat.lt_irrefl _ h

/-! ### Hash chain (`hash_chain.rs`) -/

/-- `CoreError` (the variants reachable from the embedded code; serialization
is total in the model, so `CoreError::Serialization` cannot arise). -/
inductive CoreError where
  | record (e : RecordError)
  | invalidRecord (msg : String)
  | module (msg : String)
deriving DecidableEq

/-- `ChainEntry`. -/
structure ChainEntry where
  record : Record
  hash : Hash
  prev_hash : Option Hash
deriving DecidableEq

/-- `ChainError`.  The `Core` variant of the Rust enum is omitted: it is
produced only when `compute_hash` fails to serialize, which the total model
serialization never does. -/
inductive ChainError where
  | hashMismatch (entry_id : String) (expected actual : Hash)
  | chainLinkBroken (entry_id : String)
  | timestampOutOfOrder (entry_id : String)
deriving DecidableEq

/-- `ChainEntry::new`: validate the record, then compute its hash. -/
def ChainEntry.new (record : Record) (prev_hash : Option Hash) :
    Except CoreError ChainEntry :=
  match record.validate with
  | .error e => .error (.record e)
  | .ok _ => .ok ⟨record, compute_hash record, prev_hash⟩

/-- `ChainEntry::genesis`. -/
def ChainEntry.genesis (record : Record) : Except CoreError ChainEntry :=
  ChainEntry.new record none

/-- `ChainEntry::verify_hash`: recompute and compare. -/
def ChainEntry.verify_hash (e : ChainEntry) : Except ChainError Unit :=
  if compute_hash e.record ≠ e.hash then
    .error (.hashMismatch e.record.id (compute_hash e.record) e.hash)
  else .ok ()

/-- `ChainVerificationResult`. -/
structure ChainVerificationResult where
  valid : Bool
  entries_checked : Nat
  errors : List ChainError
  hash_mismatches : Nat
  chain_link_errors : Nat
  timestamp_errors : Nat
deriving DecidableEq

def ChainVerificationResult.new : ChainVerificationResult :=
  ⟨true, 0, [], 0, 0, 0⟩

/-- The loop body of `verify_chain`.  `prevEntry` is the literal predecessor
`entries[idx - 1]` (used by the timestamp check), while `prevHash` is the
local `prev_hash` variable, which is only advanced at the end of a loop
iteration — the `continue` taken on a hash mismatch skips both the remaining
checks for that entry and the advance of `prev_hash`. -/
def verifyChainGo :
    List ChainEntry → Option ChainEntry → Option Hash → ChainVerificationResult →
      ChainVerificationResult
  | [], _, _, res => res
  | entry :: rest, prevEntry, prevHash, res =>
    match entry.verify_hash with
    | .error e =>
      let res1 : ChainVerificationResult :=
        { res with
          valid := false
          hash_mismatches := res.hash_mismatches +
            (match e with
             | .hashMismatch _ _ _ => 1
             | _ => 0)
          errors := res.errors ++ [e] }
      verifyChainGo rest (some entry) prevHash res1
    | .ok _ =>
      let res1 : ChainVerificationResult :=
        match prevHash with
        | some prev =>
          if entry.prev_hash ≠ some prev then
            { res with
              valid := false
              errors := res.errors ++ [.chainLinkBroken entry.record.id]
              chain_link_errors := res.chain_link_errors + 1 }
          else res
        | none =>
          if entry.prev_hash.isSome then
            { res with
              valid := false
              errors := res.errors ++ [.chainLinkBroken entry.record.id]
              chain_link_errors := res.chain_link_errors + 1 }
          else res
      let res2 : ChainVerificationResult :=
        match prevEntry with
        | some pe =>
          if entry.record.timestamp < pe.record.timestamp then
            { res1 with
              valid := false
              errors := res1.errors ++ [.timestampOutOfOrder entry.record.id]
              timestamp_errors := res1.timestamp_errors + 1 }
          else res1
        | none => res1
      verifyChainGo rest (some entry) (some entry.hash) res2

/-- `verify_chain`. -/
def verify_chain (entries : List ChainEntry) : ChainVerificationResult :=
  verifyChainGo entries none none
    { ChainVerificationResult.new with entries_checked := entries.length }

def isHashMismatch : ChainError → Bool
  | .hashMismatch _ _ _ => true
  | _ => false

def isLinkBroken : ChainError → Bool
  | .chainLinkBroken _ => true
  | _ => false

def isTsError : ChainError → Bool
  | .timestampOutOfOrder _ => true
  | _ => false

/-- Add a batch of recorded errors to a verification result: the counters
grow by the per-category counts, the error list is extended, and validity is
cleared when the batch is non-empty. -/
def bump (res : ChainVerificationResult) (δ : List ChainError) : ChainVerificationResult :=
  { valid := res.valid && δ.isEmpty
    entries_checked := res.entries_checked
    errors := res.errors ++ δ
    hash_mismatches := res.hash_mismatches + δ.countP isHashMismatch
    chain_link_errors := res.chain_link_errors + δ.countP isLinkBroken
    timestamp_errors := res.timestamp_errors + δ.countP isTsError }

theorem bump_nil (res : ChainVerificationResult) : bump res [] = res := by
  simp [bump]

theorem isEmpty_append {α : Type} (l1 l2 : List α) :
    (l1 ++ l2).isEmpty = (l1.isEmpty && l2.isEmpty) := by
  cases l1 <;> simp [List.isEmpty]

theorem bump_bump (res : ChainVerificationResult) (δ1 δ2 : List ChainError) :
    bump (bump res δ1) δ2 = bump res (δ1 ++ δ2) := by
  simp [bump, List.countP_append, Bool.and_assoc, Nat.add_assoc, isEmpty_append]

/-- Every step of the verification loop only ever appends errors, with the
matching per-category counter incremented for each appended error and
validity cleared exactly when some error was appended. -/
theorem verifyChainGo_spec :
    ∀ (es : List ChainEntry) (prevE : Option ChainEntry) (prevH : Option Hash)
      (res : ChainVerificationResult),
      ∃ δ : List ChainError, verifyChainGo es prevE prevH res = bump res δ
  | [], _, _, res => ⟨[], by simp [verifyChainGo, bump_nil]⟩
  | e :: rest, prevE, prevH, res => by
    by_cases hch : compute_hash e.record = e.hash
    · -- hash check passes; the link and timestamp checks run
      have hv : e.verify_hash = .ok () := by
        simp [ChainEntry.verify_hash, hch]
      have step : ∀ δ0 : List ChainError,
          ∃ δ : List ChainError,
            verifyChainGo rest (some e) (some e.hash) (bump res δ0) = bump res (δ0 ++ δ) := by
        intro δ0
        obtain ⟨δ3, h3⟩ := verifyChainGo_spec rest (some e) (some e.hash) (bump res δ0)
        exact ⟨δ3, by rw [h3, bump_bump]⟩
      rcases prevH with _ | prev <;> rcases prevE with _ | pe
      · by_cases hl : e.prev_hash.isSome
        · obtain ⟨δ, h⟩ := step [.chainLinkBroken e.record.id]
          refine ⟨[.chainLinkBroken e.record.id] ++ δ, ?_⟩
          rw [← h]
          simp only [verifyChainGo, hv]
          congr 1
          simp [hl, bump, isHashMismatch, isLinkBroken, isTsError, List.countP_cons]
        · obtain ⟨δ, h⟩ := step []
          refine ⟨δ, ?_⟩
          rw [List.nil_append] at h
          rw [← h]
          simp only [verifyChainGo, hv]
          congr 1
          simp [hl, bump]
      · by_cases hl : e.prev_hash.isSome <;>
          by_cases ht : e.record.timestamp < pe.record.timestamp
        · obtain ⟨δ, h⟩ := step [.chainLinkBroken e.record.id, .timestampOutOfOrder e.record.id]
          refine ⟨[.chainLinkBroken e.record.id, .timestampOutOfOrder e.record.id] ++ δ, ?_⟩
          rw [← h]
          simp only [verifyChainGo, hv]
          congr 1
          simp [hl, ht, bump, isHashMismatch, isLinkBroken, isTsError, List.countP_cons]
        · obtain ⟨δ, h⟩ := step [.chainLinkBroken e.record.id]
          refine ⟨[.chainLinkBroken e.record.id] ++ δ, ?_⟩
          rw [← h]
          simp only [verifyChainGo, hv]
          congr 1
          simp [hl, ht, bump, isHashMismatch, isLinkBroken, isTsError, List.countP_cons]
        · obtain ⟨δ, h⟩ := step [.timestampOutOfOrder e.record.id]
          refine ⟨[.timestampOutOfOrder e.record.id] ++ δ, ?_⟩
          rw [← h]
          simp only [verifyChainGo, hv]
          congr 1
          simp [hl, ht, bump, isHashMismatch, isLinkBroken, isTsError, List.countP_cons]
        · obtain ⟨δ, h⟩ := step []
          refine ⟨δ, ?_⟩
          rw [List.nil_append] at h
          rw [← h]
          simp only [verifyChainGo, hv]
          congr 1
          simp [hl, ht, bump]
      · by_cases hl : e.prev_hash = some prev
        · obtain ⟨δ, h⟩ := step []
          refine ⟨δ, ?_⟩
          rw [List.nil_append] at h
          rw [← h]
          simp only [verifyChainGo, hv]
          congr 1
          simp [hl, bump]
        · obtain ⟨δ, h⟩ := step [.chainLinkBroken e.record.id]
          refine ⟨[.chainLinkBroken e.record.id] ++ δ, ?_⟩
          rw [← h]
          simp only [verifyChainGo, hv]
          congr 1
          simp [hl, bump, isHashMismatch, isLinkBroken, isTsError, List.countP_cons]
      · by_cases hl : e.prev_hash = some prev <;>
          by_cases ht : e.record.timestamp < pe.record.timestamp
        · obtain ⟨δ, h⟩ := step [.timestampOutOfOrder e.record.id]
          refine ⟨[.timestampOutOfOrder e.record.id] ++ δ, ?_⟩
          rw [← h]
          simp only [verifyChainGo, hv]
          congr 1
          simp [hl, ht, bump, isHashMismatch, isLinkBroken, isTsError, List.countP_cons]
        · obtain ⟨δ, h⟩ := step []
          refine ⟨δ, ?_⟩
          rw [List.nil_append] at h
          rw [← h]
          simp only [verifyChainGo, hv]
          congr 1
          simp [hl, ht, bump]
        · obtain ⟨δ, h⟩ := step [.chainLinkBroken e.record.id, .timestampOutOfOrder e.record.id]
          refine ⟨[.chainLinkBroken e.record.id, .timestampOutOfOrder e.record.id] ++ δ, ?_⟩
          rw [← h]
          simp only [verifyChainGo, hv]
          congr 1
          simp [hl, ht, bump, isHashMismatch, isLinkBroken, isTsError, List.countP_cons]
        · obtain ⟨δ, h⟩ := step [.chainLinkBroken e.record.id]
          refine ⟨[.chainLinkBroken e.record.id] ++ δ, ?_⟩
          rw [← h]
          simp only [verifyChainGo, hv]
          congr 1
          simp [hl, ht, bump, isHashMismatch, isLinkBroken, isTsError, List.countP_cons]
    · -- hash mismatch: `continue` — no link or timestamp check for this entry
      have hv : e.verify_hash =
          .error (.hashMismatch e.record.id (compute_hash e.record) e.hash) := by
        simp [ChainEntry.verify_hash, hch]
      obtain ⟨δ, hδ⟩ := verifyChainGo_spec rest (some e) prevH
        (bump res [.hashMismatch e.record.id (compute_hash e.record) e.hash])
      refine ⟨[.hashMismatch e.record.id (compute_hash e.record) e.hash] ++ δ, ?_⟩
      have h := hδ.trans
        (bump_bump res [.hashMismatch e.record.id (compute_hash e.record) e.hash] δ)
      rw [← h]
      simp only [verifyChainGo, hv]
      congr 1
      simp [bump, isHashMismatch, isLinkBroken, isTsError, List.countP_cons]

/-- Every chain error belongs to exactly one of the three categories. -/
theorem chainError_counts (errs : List ChainError) :
    errs.countP isHashMismatch + errs.countP isLinkBroken + errs.countP isTsError =
      errs.length := by
  induction errs with
  | nil => rfl
  | cons e rest ih =>
    cases e <;>
      simp [List.countP_cons, isHashMismatch, isLinkBroken, isTsError] <;>
      omega

/-- Builds the chain of testable property §8.3: `ChainEntry::new(record_i,
prev_hash = hash_(i-1))`, starting from the given tip (`none` for genesis). -/
def buildChain : Option Hash → List Record → Except CoreError (List ChainEntry)
  | _, [] => .ok []
  | prev, r :: rest =>
    match ChainEntry.new r prev with
    | .error e => .error e
    | .ok entry =>
      match buildChain (some entry.hash) rest with
      | .error e => .error e
      | .ok es => .ok (entry :: es)

/-- Non-decreasing record timestamps, starting from an optional predecessor. -/
def tsOk : Option Nat → List Record → Bool
  | _, [] => true
  | none, r :: rest => tsOk (some r.timestamp) rest
  | some t, r :: rest => decide (t ≤ r.timestamp) && tsOk (some r.timestamp) rest

/-- A chain built by `buildChain` from valid records with non-decreasing
timestamps passes every check of the verification loop unchanged. -/
theorem buildChain_verifies :
    ∀ (rs : List Record) (prev : Option ChainEntry) (res : ChainVerificationResult),
      (∀ r ∈ rs, (r.validate).isOk = true) →
      tsOk (prev.map fun e => e.record.timestamp) rs = true →
      ∃ es, buildChain (prev.map fun e => e.hash) rs = .ok es ∧
        es.length = rs.length ∧
        verifyChainGo es prev (prev.map fun e => e.hash) res = res
  | [], _, res, _, _ => ⟨[], rfl, rfl, rfl⟩
  | r :: rest, prev, res, hval, hts => by
    have hvr : r.validate = .ok () := by
      rcases h : r.validate with e | u
      · have := hval r (by simp)
        rw [h] at this
        simp [Except.isOk, Except.toBool] at this
      · cases u
        rfl
    have hnew : ChainEntry.new r (prev.map fun e => e.hash) =
        .ok ⟨r, compute_hash r, prev.map fun e => e.hash⟩ := by
      simp [ChainEntry.new, hvr]
    have hts2 : tsOk (some r.timestamp) rest = true := by
      rcases prev with _ | pe
      · exact hts
      · simpa [tsOk] using (And.right (by simpa [tsOk, Bool.and_eq_true] using hts))
    obtain ⟨es, hb, hlen, hgo⟩ :=
      buildChain_verifies rest (some ⟨r, compute_hash r, prev.map fun e => e.hash⟩) res
        (fun x hx => hval x (by simp [hx]))
        (by simpa using hts2)
    refine ⟨⟨r, compute_hash r, prev.map fun e => e.hash⟩ :: es, ?_, by simp [hlen], ?_⟩
    · simp only [buildChain, hnew]
      simp only [Option.map_some'] at hb
      rw [hb]
    · have hv : ChainEntry.verify_hash ⟨r, compute_hash r, prev.map fun e => e.hash⟩ =
          .ok () := by
        simp [ChainEntry.verify_hash]
      simp only [verifyChainGo, hv]
      rcases prev with _ | pe
      · simp only [Option.map_none, Option.isSome_none, Bool.false_eq_true, if_false]
        simpa using hgo
      · have hle : pe.record.timestamp ≤ r.timestamp := by
          have := (by simpa [tsOk, Bool.and_eq_true] using hts :
            (decide (pe.record.timestamp ≤ r.timestamp) = true) ∧
              tsOk (some r.timestamp) rest = true).left
          simpa using this
        simp only [Option.map_some, ne_eq, not_true_eq_false, if_false,
          show ¬ r.timestamp < pe.record.timestamp by omega, ite_false]
        simpa using hgo

/-! ### Association-list model of `std::collections::HashMap` content -/

def lookupAssoc {β : Type} : List (String × β) → String → Option β
  | [], _ => none
  | (k, v) :: rest, key => if k = key then some v else lookupAssoc rest key

def containsKey {β : Type} (l : List (String × β)) (key : String) : Bool :=
  (lookupAssoc l key).isSome

/-- `HashMap::insert`: replace the value of an existing key, or add the
binding. -/
def insertAssoc {β : Type} : List (String × β) → String → β → List (String × β)
  | [], key, v => [(key, v)]
  | (k, w) :: rest, key, v =>
    if k = key then (k, v) :: rest else (k, w) :: insertAssoc rest key v

/-- `HashMap::remove`. -/
def removeAssoc {β : Type} : List (String × β) → String → List (String × β)
  | [], _ => []
  | (k, w) :: rest, key => if k = key then rest else (k, w) :: removeAssoc rest key

theorem lookupAssoc_insertAssoc_ne {β : Type} (l : List (String × β)) (k k2 : String)
    (v : β) (h : k ≠ k2) : lookupAssoc (insertAssoc l k v) k2 = lookupAssoc l k2 := by
  induction l with
  | nil => simp [insertAssoc, lookupAssoc, h]
  | cons p rest ih =>
    obtain ⟨pk, pv⟩ := p
    by_cases hk : pk = k
    · subst hk
      simp [insertAssoc, lookupAssoc, h]
    · simp [insertAssoc, lookupAssoc, hk, ih]

theorem lookupAssoc_insertAssoc_self {β : Type} (l : List (String × β)) (k : String)
    (v : β) : lookupAssoc (insertAssoc l k v) k = some v := by
  induction l with
  | nil => simp [insertAssoc, lookupAssoc]
  | cons p rest ih =>
    obtain ⟨pk, pv⟩ := p
    by_cases hk : pk = k
    · subst hk
      simp [insertAssoc, lookupAssoc]
    · simp [insertAssoc, lookupAssoc, hk, ih]

/-! ### Access control (`acl/types.rs`, `acl/memory.rs`) -/

inductive AclError where
  | accessDenied (msg : String)
  | invalidGrant (msg : String)
  | grantNotFound
deriving DecidableEq

structure Grant where
  subject_oid : String
  resource_oid : String
  action : String
  granted_by : String
  granted_at : Nat
  expires_at : Option Nat
  metadata : Option (List (String × Json))
deriving DecidableEq

structure CheckParams where
  requester_oid : String
  resource_oid : String
  action : String
deriving DecidableEq

structure RevokeParams where
  subject_oid : String
  resource_oid : String
  action : String
deriving DecidableEq

/-- `InMemoryAcl`: grants keyed by the colon-joined string
`"\x7bsubject\x7d:\x7bresource\x7d:\x7baction\x7d"`. -/
structure InMemoryAcl where
  grants : List (String × Grant)
deriving DecidableEq

def InMemoryAcl.empty : InMemoryAcl := ⟨[]⟩

/-- `InMemoryAcl::make_key`. -/
def make_key (subject_oid resource_oid action : String) : String :=
  subject_oid ++ ":" ++ resource_oid ++ ":" ++ action

/-- `InMemoryAcl::grant` (`&mut self`; always `Ok`). -/
def InMemoryAcl.grantOp (acl : InMemoryAcl) (g : Grant) : InMemoryAcl :=
  ⟨insertAssoc acl.grants (make_key g.subject_oid g.resource_oid g.action) g⟩

/-- `InMemoryAcl::check`; `now` is the wall clock in seconds that the Rust
code reads from `SystemTime::now()`. -/
def InMemoryAcl.check (acl : InMemoryAcl) (params : CheckParams) (now : Nat) :
    Except AclError Bool :=
  match lookupAssoc acl.grants
      (make_key params.requester_oid params.resource_oid params.action) with
  | some g =>
    match g.expires_at with
    | some expires_at => if expires_at < now then .ok false else .ok true
    | none => .ok true
  | none => .ok false

/-- `InMemoryAcl::revoke` (`&mut self`; always `Ok`, present or not). -/
def InMemoryAcl.revoke (acl : InMemoryAcl) (params : RevokeParams) :
    Except AclError Unit × InMemoryAcl :=
  (.ok (), ⟨removeAssoc acl.grants
    (make_key params.subject_oid params.resource_oid params.action)⟩)

/-- `InMemoryAcl::list_grants`. -/
def InMemoryAcl.list_grants (acl : InMemoryAcl) (subject_oid : String) (now : Nat) :
    Except AclError (List Grant) :=
  .ok ((acl.grants.map Prod.snd).filter fun g =>
    g.subject_oid == subject_oid &&
      (match g.expires_at with
       | some exp => decide (now ≤ exp)
       | none => true))

/-! ### Request context (`context.rs`) -/

inductive ContextError where
  | requesterOidMissing
  | invalidOid (msg : String)
  | validationFailed (msg : String)
deriving DecidableEq

structure RequestContext where
  requester_oid : String
  timestamp : Nat
  metadata : Option (List (String × Json))
deriving DecidableEq

/-- Prefix test on character lists (`str::starts_with`). -/
def charsStartWith : List Char → List Char → Bool
  | [], _ => true
  | _ :: _, [] => false
  | c :: cs, d :: ds => c == d && charsStartWith cs ds

/-- `str::split(sep)`: every separator produces a segment boundary, empty
segments included. -/
def splitChar (sep : Char) : List Char → List (List Char)
  | [] => [[]]
  | c :: cs =>
    let rest := splitChar sep cs
    if c == sep then [] :: rest
    else
      match rest with
      | r :: rs => (c :: r) :: rs
      | [] => [[c]]

/-- `RequestContext::validate`; `nowMs` is the wall clock in milliseconds
read from `SystemTime::now()`.  (Error message strings are carried without
the quotation marks the Rust `format!` calls add around field names.) -/
def RequestContext.validate (ctx : RequestContext) (nowMs : Nat) :
    Except ContextError Unit :=
  if ctx.requester_oid = "" then .error .requesterOidMissing
  else if ¬ charsStartWith "oid:onoal:".data ctx.requester_oid.data then
    .error (.invalidOid ("OID must start with oid:onoal:, got: " ++ ctx.requester_oid))
  else if (splitChar (Char.ofNat 58) ctx.requester_oid.data).length < 4 then
    .error (.invalidOid ("OID must have format oid:onoal:type:id, got: " ++
      ctx.requester_oid))
  else if ctx.timestamp > nowMs + 300000 then
    .error (.validationFailed ("Timestamp is too far in the future: " ++
      toString ctx.timestamp))
  else .ok ()

/-! ### Ledger state (`state.rs`) -/

/-- `LedgerState`: ordered entries, lookup indices (positional), cached tip. -/
structure LedgerState where
  entries : List ChainEntry
  by_hash : List (Hash × Nat)
  by_id : List (String × Nat)
  latest_hash : Option Hash
deriving DecidableEq

def LedgerState.new : LedgerState := ⟨[], [], [], none⟩

/-- Insert into the hash index (`HashMap::insert`: last write wins). -/
def insertHashIdx : List (Hash × Nat) → Hash → Nat → List (Hash × Nat)
  | [], key, v => [(key, v)]
  | (k, w) :: rest, key, v =>
    if k = key then (k, v) :: rest else (k, w) :: insertHashIdx rest key v

/-- `LedgerState::append`. -/
def LedgerState.append (st : LedgerState) (entry : ChainEntry) : LedgerState :=
  { entries := st.entries ++ [entry]
    by_hash := insertHashIdx st.by_hash entry.hash st.entries.length
    by_id := insertAssoc st.by_id entry.record.id st.entries.length
    latest_hash := some entry.hash }

def LedgerState.len (st : LedgerState) : Nat := st.entries.length

/-! ### Engine (`engine.rs`) -/

inductive EngineError where
  | core (e : CoreError)
  | record (e : RecordError)
  | chainInvalid (res : ChainVerificationResult)
  | moduleAlreadyRegistered (id : String)
  | unknownModule (msg : String)
  | recordNotFound (msg : String)
  | invalidQuery (msg : String)
  | storage (msg : String)
  | accessDenied (msg : String)
  | acl (e : AclError)
  | configuration (msg : String)
  | context (e : ContextError)
deriving DecidableEq

/-- A `dyn Module` as the engine sees it on the append path: `before_append`
may rewrite the record (`&mut Record`) or fail; `after_append` may fail.
Both take `&self`, so a module cannot change its own state here and the
hooks are plain functions. -/
structure ModuleImpl where
  before_append : Record → Except CoreError Record
  after_append : Record → Hash → Except CoreError Unit

/-- A `dyn StorageBackend` restricted to the append path: `save_entry` on a
backend state of type `σ`. -/
structure StorageBehavior (σ : Type) where
  save_entry : σ → ChainEntry → Except String σ

/-- `LedgerEngine`.  `modules` is the fixed sequence `all_modules()` yields
for this instance (HashMap iteration order, stable per instance). -/
structure LedgerEngine (σ : Type) where
  id : String
  state : LedgerState
  modules : List ModuleImpl
  storage : Option (StorageBehavior σ × σ)
  acl : Option InMemoryAcl

/-- `for module in self.modules.all_modules() \x7b module.before_append(&mut record)? \x7d`. -/
def runBeforeHooks : List ModuleImpl → Record → Except CoreError Record
  | [], r => .ok r
  | m :: ms, r =>
    match m.before_append r with
    | .error e => .error e
    | .ok r2 => runBeforeHooks ms r2

/-- `for module in self.modules.all_modules() \x7b module.after_append(&record, &hash)? \x7d`. -/
def runAfterHooks : List ModuleImpl → Record → Hash → Except CoreError Unit
  | [], _, _ => .ok ()
  | m :: ms, r, h =>
    match m.after_append r h with
    | .error e => .error e
    | .ok _ => runAfterHooks ms r h

/-- Steps 1–2 of `append_record`/`append_batch`: context validation and the
ACL gate on `(requester_oid, "oid:onoal:ledger:\x7bid\x7d", "write")`. -/
def aclGate {σ : Type} (eng : LedgerEngine σ) (ctx : RequestContext) (nowSec : Nat) :
    Except EngineError Unit :=
  match eng.acl with
  | none => .ok ()
  | some acl =>
    match acl.check
        ⟨ctx.requester_oid, "oid:onoal:ledger:" ++ eng.id, "write"⟩ nowSec with
    | .error e => .error (.acl e)
    | .ok allowed =>
      if allowed then .ok ()
      else .error (.accessDenied ("User " ++ ctx.requester_oid ++
        " does not have write access"))

/-- Step 7 of `append_record`: persist to storage if configured. -/
def saveToStorage {σ : Type} (storage : Option (StorageBehavior σ × σ)) (entry : ChainEntry) :
    Except String (Option (StorageBehavior σ × σ)) :=
  match storage with
  | none => .ok none
  | some (sb, s) =>
    match sb.save_entry s entry with
    | .error e => .error e
    | .ok s2 => .ok (some (sb, s2))

/-- `LedgerEngine::append_record` (`&mut self`): returns the result together
with the engine as the method left it.  Every failing step returns before
`self.state.append(entry)`; only the storage field can already have been
written (step 7 precedes the after-hooks and the state append). -/
def LedgerEngine.append_record {σ : Type} (eng : LedgerEngine σ) (record : Record)
    (ctx : RequestContext) (nowMs nowSec : Nat) :
    Except EngineError Hash × LedgerEngine σ :=
  match ctx.validate nowMs with
  | .error e => (.error (.context e), eng)
  | .ok _ =>
    match aclGate eng ctx nowSec with
    | .error e => (.error e, eng)
    | .ok _ =>
      match record.validate with
      | .error e => (.error (.record e), eng)
      | .ok _ =>
        match runBeforeHooks eng.modules record with
        | .error e => (.error (.core e), eng)
        | .ok record2 =>
          match ChainEntry.new record2 eng.state.latest_hash with
          | .error e => (.error (.core e), eng)
          | .ok entry =>
            match saveToStorage eng.storage entry with
            | .error e => (.error (.storage e), eng)
            | .ok storage2 =>
              match runAfterHooks eng.modules record2 entry.hash with
              | .error e => (.error (.core e), { eng with storage := storage2 })
              | .ok _ =>
                (.ok entry.hash,
                  { eng with
                    storage := storage2
                    state := eng.state.append entry })

/-- Step 3 of `append_batch`: validate every record up front. -/
def validateAll : List Record → Except RecordError Unit
  | [] => .ok ()
  | r :: rest =>
    match r.validate with
    | .error e => .error e
    | .ok _ => validateAll rest

/-- Step 4 of `append_batch`: run the before-hooks over every record. -/
def processBefore (modules : List ModuleImpl) : List Record → Except CoreError (List Record)
  | [] => .ok []
  | r :: rest =>
    match runBeforeHooks modules r with
    | .error e => .error e
    | .ok r2 =>
      match processBefore modules rest with
      | .error e => .error e
      | .ok rs => .ok (r2 :: rs)

/-- Steps 5–6 of `append_batch`: build each chain entry on the running tip
and run the after-hooks for it, accumulating entries and hashes. -/
def buildEntries (modules : List ModuleImpl) :
    Option Hash → List Record → Except EngineError (List ChainEntry × List Hash)
  | _, [] => .ok ([], [])
  | prev, r :: rest =>
    match ChainEntry.new r prev with
    | .error e => .error (.core e)
    | .ok entry =>
      match runAfterHooks modules r entry.hash with
      | .error e => .error (.core e)
      | .ok _ =>
        match buildEntries modules (some entry.hash) rest with
        | .error e => .error e
        | .ok (es, hs) => .ok (entry :: es, entry.hash :: hs)

/-- The persistence loop of `append_batch`: saves entries one at a time; on
failure the earlier saves remain in the backend. -/
def saveAll {σ : Type} :
    Option (StorageBehavior σ × σ) → List ChainEntry →
      Except String Unit × Option (StorageBehavior σ × σ)
  | storage, [] => (.ok (), storage)
  | storage, e :: rest =>
    match saveToStorage storage e with
    | .error err => (.error err, storage)
    | .ok storage2 => saveAll storage2 rest

/-- `LedgerEngine::append_batch` (`&mut self`).  All gates run up front; the
state is only appended to after every save succeeded. -/
def LedgerEngine.append_batch {σ : Type} (eng : LedgerEngine σ) (records : List Record)
    (ctx : RequestContext) (nowMs nowSec : Nat) :
    Except EngineError (List Hash) × LedgerEngine σ :=
  match ctx.validate nowMs with
  | .error e => (.error (.context e), eng)
  | .ok _ =>
    match aclGate eng ctx nowSec with
    | .error e => (.error e, eng)
    | .ok _ =>
      match validateAll records with
      | .error e => (.error (.record e), eng)
      | .ok _ =>
        match processBefore eng.modules records with
        | .error e => (.error (.core e), eng)
        | .ok processed =>
          match buildEntries eng.modules eng.state.latest_hash processed with
          | .error e => (.error e, eng)
          | .ok (entries, hashes) =>
            match saveAll eng.storage entries with
            | (.error e, storage2) => (.error (.storage e), { eng with storage := storage2 })
            | (.ok _, storage2) =>
              (.ok hashes,
                { eng with
                  storage := storage2
                  state := entries.foldl LedgerState.append eng.state })

/-- `LedgerEngine::grant`. -/
def LedgerEngine.grant {σ : Type} (eng : LedgerEngine σ) (g : Grant) :
    Except EngineError Unit × LedgerEngine σ :=
  match eng.acl with
  | some acl => (.ok (), { eng with acl := some (acl.grantOp g) })
  | none => (.error (.configuration "ACL not enabled"), eng)

/-- `LedgerEngine::check_access`. -/
def LedgerEngine.check_access {σ : Type} (eng : LedgerEngine σ) (params : CheckParams)
    (nowSec : Nat) : Except EngineError Bool :=
  match eng.acl with
  | some acl =>
    match acl.check params nowSec with
    | .error e => .error (.acl e)
    | .ok b => .ok b
  | none => .ok true

/-- `LedgerEngine::revoke`. -/
def LedgerEngine.revoke {σ : Type} (eng : LedgerEngine σ) (params : RevokeParams) :
    Except EngineError Unit × LedgerEngine σ :=
  match eng.acl with
  | some acl =>
    match acl.revoke params with
    | (.error e, acl2) => (.error (.acl e), { eng with acl := some acl2 })
    | (.ok _, acl2) => (.ok (), { eng with acl := some acl2 })
  | none => (.error (.configuration "ACL not enabled"), eng)

/-- `LedgerEngine::list_grants`. -/
def LedgerEngine.list_grants {σ : Type} (eng : LedgerEngine σ) (subject_oid : String)
    (nowSec : Nat) : Except EngineError (List Grant) :=
  match eng.acl with
  | some acl =>
    match acl.list_grants subject_oid nowSec with
    | .error e => .error (.acl e)
    | .ok gs => .ok gs
  | none => .ok []

def LedgerEngine.len {σ : Type} (eng : LedgerEngine σ) : Nat := eng.state.len

def LedgerEngine.latest_hash {σ : Type} (eng : LedgerEngine σ) : Option Hash :=
  eng.state.latest_hash

/-! ### Module registry (`module_registry.rs`, `module/trait_def.rs`,
`module/proof.rs`, `module/asset.rs`) -/

inductive ModuleState where
  | Registered
  | Initialized
  | Started
  | Stopped
deriving DecidableEq

structure ModuleMeta where
  id : String
  version : String
  state : ModuleState
deriving DecidableEq

structure ModuleConfig where
  id : String
  version : String
  config : Json
deriving DecidableEq

/-- A registered `Box<dyn Module>`: identity, lifecycle hook results (each
hook takes a context the model elides, since the built-in hooks ignore it),
and the append-path hooks. -/
structure RegModule where
  id : String
  version : String
  initResult : Except String Unit
  startResult : Except String Unit
  stopResult : Except String Unit
  before_append : Record → Except CoreError Record
  after_append : Record → Hash → Except CoreError Unit

/-- `ProofModule::before_append`. -/
def proofBeforeAppend (r : Record) : Except CoreError Record :=
  if r.stream ≠ "proofs" then .ok r
  else if (r.payload.get "subject_oid").isSome = false then
    .error (.invalidRecord "Proof record must have subject_oid")
  else if (r.payload.get "issuer_oid").isSome = false then
    .error (.invalidRecord "Proof record must have issuer_oid")
  else .ok r

/-- `AssetModule::before_append`. -/
def assetBeforeAppend (r : Record) : Except CoreError Record :=
  if r.stream ≠ "assets" then .ok r
  else if (r.payload.get "owner_oid").isSome = false then
    .error (.invalidRecord "Asset record must have owner_oid")
  else .ok r

/-- `ProofModule::new`. -/
def ProofModule.new (cfg : ModuleConfig) : RegModule :=
  ⟨cfg.id, cfg.version, .ok (), .ok (), .ok (), proofBeforeAppend, fun _ _ => .ok ()⟩

/-- `AssetModule::new`. -/
def AssetModule.new (cfg : ModuleConfig) : RegModule :=
  ⟨cfg.id, cfg.version, .ok (), .ok (), .ok (), assetBeforeAppend, fun _ _ => .ok ()⟩

/-- `ModuleRegistry`: two HashMaps (modules and meta, both keyed by module
id) and the ledger id.  The association lists record the map content in
insertion order; every iteration over a map takes an explicit order
parameter (see `hashIterate`). -/
structure ModuleRegistry where
  modules : List (String × RegModule)
  meta : List (String × ModuleMeta)
  ledger_id : String

def ModuleRegistry.withLedgerId (ledger_id : String) : ModuleRegistry :=
  ⟨[], [], ledger_id⟩

/-- Iteration order of a Rust `HashMap` under a seeded hasher: unspecified
and seed-dependent.  The model exposes it as a ranking function `σ` on keys
and yields the entries stably sorted by rank — any rank function describes a
legal iteration order, and the order is stable for one map instance. -/
def hashIterate {α : Type} (rank : String → Nat) (l : List (String × α)) :
    List (String × α) :=
  l.insertionSort (fun a b => rank a.1 ≤ rank b.1)

instance {α : Type} (rank : String → Nat) :
    DecidableRel (fun (a b : String × α) => rank a.1 ≤ rank b.1) :=
  fun _ _ => Nat.decLe _ _

/-- `ModuleRegistry::register`. -/
def ModuleRegistry.register (reg : ModuleRegistry) (m : RegModule) :
    Except EngineError ModuleRegistry :=
  if containsKey reg.modules m.id then .error (.moduleAlreadyRegistered m.id)
  else .ok
    { reg with
      meta := insertAssoc reg.meta m.id ⟨m.id, m.version, .Registered⟩
      modules := insertAssoc reg.modules m.id m }

/-- `ModuleRegistry::load_from_config`: fixed id-to-constructor mapping;
an unknown id is a hard error. -/
def ModuleRegistry.load_from_config (reg : ModuleRegistry) :
    List ModuleConfig → Except EngineError ModuleRegistry
  | [] => .ok reg
  | cfg :: rest =>
    let build : Except EngineError RegModule :=
      if cfg.id = "proof" then .ok (ProofModule.new cfg)
      else if cfg.id = "asset" then .ok (AssetModule.new cfg)
      else .error (.unknownModule cfg.id)
    match build with
    | .error e => .error e
    | .ok m =>
      match reg.register m with
      | .error e => .error e
      | .ok reg2 => reg2.load_from_config rest

/-- `ModuleRegistry::all_modules`: `self.modules.values()` in HashMap
iteration order. -/
def ModuleRegistry.all_modules (reg : ModuleRegistry) (rank : String → Nat) :
    List RegModule :=
  (hashIterate rank reg.modules).map Prod.snd

/-- `ModuleRegistry::get_state`. -/
def ModuleRegistry.get_state (reg : ModuleRegistry) (id : String) : Option ModuleState :=
  (lookupAssoc reg.meta id).map ModuleMeta.state

/-- The iteration body of `stop_all` over the already-ordered module list:
skip modules without meta or not `Started`; otherwise call `stop` (its
result is only logged) and mark the module `Stopped`. -/
def stopAllGo : List (String × RegModule) → List (String × ModuleMeta) →
    List (String × ModuleMeta)
  | [], meta => meta
  | (id, m) :: rest, meta =>
    match lookupAssoc meta id with
    | none => stopAllGo rest meta
    | some mm =>
      if mm.state ≠ .Started then stopAllGo rest meta
      else
        -- `if let Err(e) = module.stop(&ctx) \x7b eprintln!(...) \x7d` — the result is
        -- discarded either way, and the transition below happens regardless
        let _ := m.stopResult
        stopAllGo rest (insertAssoc meta id { mm with state := .Stopped })

/-- `ModuleRegistry::stop_all` (`&mut self`, returns `()`): iterates the
modules map in HashMap order `rank`. -/
def ModuleRegistry.stop_all (reg : ModuleRegistry) (rank : String → Nat) :
    ModuleRegistry :=
  { reg with meta := stopAllGo (hashIterate rank reg.modules) reg.meta }

/-! ### SQLite storage backend (`storage/sqlite.rs`) -/

/-- One row of the `entries` table.  `serialized` holds the full serialized
record (deserialization of what was serialized is modelled as the identity);
the denormalized columns mirror `save_entry`.  `rowid` order is the list
order. -/
structure SqliteRow where
  hash : Hash
  prev_hash : Option Hash
  record_id : String
  stream : String
  timestamp : Nat
  payload_json : String
  meta_json : Option String
  serialized : Record
  created_at : Nat
deriving DecidableEq

structure SqliteStorage where
  rows : List SqliteRow
deriving DecidableEq

def SqliteStorage.empty : SqliteStorage := ⟨[]⟩

/-- `SqliteStorage::save_entry`: `INSERT OR REPLACE` keyed by `hash`; the
`created_at` column is bound to `entry.record.timestamp as i64` — a value
embedded in the record, not an insertion counter. -/
def SqliteStorage.save_entry (st : SqliteStorage) (entry : ChainEntry) : SqliteStorage :=
  ⟨(st.rows.filter fun row => row.hash ≠ entry.hash) ++
    [{ hash := entry.hash
       prev_hash := entry.prev_hash
       record_id := entry.record.id
       stream := entry.record.stream
       timestamp := entry.record.timestamp
       payload_json := serializeValue entry.record.payload
       meta_json := entry.record.meta.map serializeValue
       serialized := entry.record
       created_at := entry.record.timestamp }]⟩

instance : DecidableRel (fun (a b : SqliteRow) => a.created_at ≤ b.created_at) :=
  fun _ _ => Nat.decLe _ _

/-- `SqliteStorage::load_all_entries`: `SELECT ... ORDER BY created_at ASC`.
The sort is modelled as stable (ties keep rowid order; SQLite leaves the tie
order unspecified, which only matters for equal `created_at` values). -/
def SqliteStorage.load_all_entries (st : SqliteStorage) : List ChainEntry :=
  (st.rows.insertionSort fun a b => a.created_at ≤ b.created_at).map fun row =>
    ⟨row.serialized, row.hash, row.prev_hash⟩

/-! ### Supporting lemmas for the claims about the engine, the ACL and the
registry -/

/-- Every error path of `append_record` returns before `state.append`. -/
theorem append_record_error_keeps_state {σ : Type} (eng : LedgerEngine σ) (record : Record)
    (ctx : RequestContext) (nowMs nowSec : Nat)
    (h : (eng.append_record record ctx nowMs nowSec).1.isOk = false) :
    ((eng.append_record record ctx nowMs nowSec).2).state = eng.state := by
  unfold LedgerEngine.append_record at h ⊢
  repeat' split at h <;> try rfl
  simp [Except.isOk, Except.toBool] at h

/-- Every error path of `append_batch` returns before the state-append loop. -/
theorem append_batch_error_keeps_state {σ : Type} (eng : LedgerEngine σ) (records : List Record)
    (ctx : RequestContext) (nowMs nowSec : Nat)
    (h : (eng.append_batch records ctx nowMs nowSec).1.isOk = false) :
    ((eng.append_batch records ctx nowMs nowSec).2).state = eng.state := by
  unfold LedgerEngine.append_batch at h ⊢
  repeat' split at h <;> try rfl
  simp [Except.isOk, Except.toBool] at h

/-- An ACL denial makes `append_record` return the access-denied error with
the engine untouched, whatever the modules and the storage backend would
have done. -/
theorem append_record_denied {σ : Type} (eng : LedgerEngine σ) (acl : InMemoryAcl)
    (record : Record) (ctx : RequestContext) (nowMs nowSec : Nat)
    (hacl : eng.acl = some acl)
    (hctx : ctx.validate nowMs = .ok ())
    (hchk : acl.check ⟨ctx.requester_oid, "oid:onoal:ledger:" ++ eng.id, "write"⟩ nowSec =
      .ok false) :
    eng.append_record record ctx nowMs nowSec =
      (.error (.accessDenied ("User " ++ ctx.requester_oid ++
        " does not have write access")), eng) := by
  unfold LedgerEngine.append_record aclGate
  simp [hctx, hacl, hchk]

/-- `remove` of an absent key leaves the map unchanged. -/
theorem removeAssoc_of_none {β : Type} (l : List (String × β)) (key : String)
    (h : lookupAssoc l key = none) : removeAssoc l key = l := by
  induction l with
  | nil => rfl
  | cons p rest ih =>
    obtain ⟨pk, pv⟩ := p
    by_cases hk : pk = key
    · subst hk
      simp [lookupAssoc] at h
    · simp [lookupAssoc, hk] at h
      simp [removeAssoc, hk, ih h]

/-- Full characterization of `stop_all` on the meta map: a module keyed in
the iterated list moves from `Started` to `Stopped`; nothing else changes. -/
theorem stopAllGo_lookup :
    ∀ (L : List (String × RegModule)) (meta : List (String × ModuleMeta)) (id : String),
      lookupAssoc (stopAllGo L meta) id =
        match lookupAssoc meta id with
        | none => none
        | some mm =>
          if mm.state = .Started ∧ id ∈ L.map Prod.fst then
            some { mm with state := .Stopped }
          else some mm
  | [], meta, id => by
    cases h : lookupAssoc meta id <;> simp [stopAllGo, h]
  | (k, m) :: rest, meta, id => by
    by_cases hk : k = id
    · subst hk
      cases h : lookupAssoc meta k with
      | none =>
        simp only [stopAllGo, h]
        rw [stopAllGo_lookup rest meta k, h]
      | some mm =>
        by_cases hs : mm.state = .Started
        · simp only [stopAllGo, h, hs]
          simp only [ne_eq, not_true_eq_false, if_false, ite_false]
          rw [stopAllGo_lookup rest (insertAssoc meta k { mm with state := .Stopped }) k,
            lookupAssoc_insertAssoc_self]
          simp [h, hs]
        · simp only [stopAllGo, h]
          rw [if_pos (by simpa using hs)]
          rw [stopAllGo_lookup rest meta k, h]
          simp [hs]
    · cases h : lookupAssoc meta k with
      | none =>
        simp only [stopAllGo, h]
        rw [stopAllGo_lookup rest meta id]
        have hik : id ≠ k := fun hh => hk hh.symm
        have hmem : (id ∈ k :: List.map Prod.fst rest) = (id ∈ List.map Prod.fst rest) := by
          simp [List.mem_cons, hik]
        cases h2 : lookupAssoc meta id <;> simp only [List.map_cons, hmem]
      | some mm =>
        by_cases hs : mm.state = .Started
        · simp only [stopAllGo, h, hs]
          simp only [ne_eq, not_true_eq_false, if_false, ite_false]
          rw [stopAllGo_lookup rest (insertAssoc meta k { mm with state := .Stopped }) id,
            lookupAssoc_insertAssoc_ne meta k id { mm with state := .Stopped } hk]
          have hik : id ≠ k := fun hh => hk hh.symm
          have hmem : (id ∈ k :: List.map Prod.fst rest) = (id ∈ List.map Prod.fst rest) := by
            simp [List.mem_cons, hik]
          cases h2 : lookupAssoc meta id <;> simp only [List.map_cons, hmem]
        · simp only [stopAllGo, h]
          rw [if_pos (by simpa using hs)]
          rw [stopAllGo_lookup rest meta id]
          have hik : id ≠ k := fun hh => hk hh.symm
          have hmem : (id ∈ k :: List.map Prod.fst rest) = (id ∈ List.map Prod.fst rest) := by
            simp [List.mem_cons, hik]
          cases h2 : lookupAssoc meta id <;> simp only [List.map_cons, hmem]

theorem mem_keys_hashIterate {α : Type} (rank : String → Nat) (l : List (String × α))
    (id : String) :
    id ∈ (hashIterate rank l).map Prod.fst ↔ id ∈ l.map Prod.fst :=
  ((List.perm_insertionSort _ l).map Prod.fst).mem_iff

theorem containsKey_iff_mem {β : Type} (l : List (String × β)) (id : String) :
    containsKey l id = true ↔ id ∈ l.map Prod.fst := by
  induction l with
  | nil => simp [containsKey, lookupAssoc]
  | cons p rest ih =>
    obtain ⟨pk, pv⟩ := p
    by_cases hk : pk = id
    · subst hk
      simp [containsKey, lookupAssoc]
    · have hik : id ≠ pk := fun hh => hk hh.symm
      simp [containsKey, lookupAssoc, hk, hik] at ih ⊢
      exact ih

/-! ### Concrete sample data used by counterexamples and witnesses -/

def samplePayload : Json := .obj [("type", .str "proof")]

def rec1 : Record := ⟨"entry-1", "proofs", 2000, samplePayload, none⟩

def rec2 : Record := ⟨"entry-2", "proofs", 1000, samplePayload, none⟩

def rec3 : Record := ⟨"entry-3", "proofs", 3000, samplePayload, none⟩

/-- A correctly built genesis entry for `rec1`. -/
def entryA : ChainEntry := ⟨rec1, compute_hash rec1, none⟩

/-- A correctly built successor of `entryA` carrying `rec2` (whose timestamp
is smaller than that of `rec1`). -/
def entryB : ChainEntry := ⟨rec2, compute_hash rec2, some (compute_hash rec1)⟩

/-- An entry whose stored hash is corrupted, whose `prev_hash` does not match
its predecessor, and whose timestamp decreases: all three checks of §4.2
apply to it. -/
def entryBad : ChainEntry :=
  ⟨rec2, Hash.ofBytes (List.replicate 32 255), some (Hash.ofBytes (List.replicate 32 153))⟩

/-! ## The claims -/

/-- C1 counterexample: on an entry whose stored hash is corrupted, the
`continue` in `verify_chain` skips the chain-linkage and timestamp checks —
`entryBad` violates all three properties, yet only the hash mismatch is
recorded, so the claim that all three checks run on every entry regardless
of earlier check failures is false. -/
theorem verify_chain_skips_checks_after_hash_mismatch :
    entryBad.prev_hash ≠ some entryA.hash ∧
    entryBad.record.timestamp < entryA.record.timestamp ∧
    (verify_chain [entryA, entryBad]).hash_mismatches = 1 ∧
    (verify_chain [entryA, entryBad]).chain_link_errors = 0 ∧
    (verify_chain [entryA, entryBad]).timestamp_errors = 0 ∧
    (verify_chain [entryA, entryBad]).errors =
      [.hashMismatch "entry-2" (compute_hash rec2) entryBad.hash] := by
  refine ⟨by decide, by decide, rfl, rfl, rfl, rfl⟩

/-- C1 (amended): `verify_chain` accumulates errors across entries without
aborting — but a hash-integrity failure on an entry skips the linkage and
timestamp checks for that entry (and leaves the link expectation at the last
hash-valid entry).  The result reports `entries_checked` equal to the
sequence length, `valid = true` exactly when the error list is empty, and
per-category counters that are exactly the per-category counts of the error
list (so they sum to its length). -/
theorem verify_chain_reporting (entries : List ChainEntry) :
    ((verify_chain entries).valid = true ↔ (verify_chain entries).errors = []) ∧
    (verify_chain entries).entries_checked = entries.length ∧
    (verify_chain entries).hash_mismatches =
      (verify_chain entries).errors.countP isHashMismatch ∧
    (verify_chain entries).chain_link_errors =
      (verify_chain entries).errors.countP isLinkBroken ∧
    (verify_chain entries).timestamp_errors =
      (verify_chain entries).errors.countP isTsError ∧
    (verify_chain entries).hash_mismatches + (verify_chain entries).chain_link_errors +
      (verify_chain entries).timestamp_errors = (verify_chain entries).errors.length := by
  obtain ⟨δ, h⟩ := verifyChainGo_spec entries none none
    { ChainVerificationResult.new with entries_checked := entries.length }
  have hv : verify_chain entries =
      bump { ChainVerificationResult.new with entries_checked := entries.length } δ := h
  rw [hv]
  simp only [bump, ChainVerificationResult.new, List.nil_append, Bool.true_and,
    Nat.zero_add, eq_self_iff_true, true_and, and_true]
  constructor
  · cases δ <;> simp [List.isEmpty]
  · exact chainError_counts δ

/-- C2: whenever `append_record` or `append_batch` returns an error — any
error: context validation, ACL denial, record validation, a hook failure,
chain-entry creation, or storage failure — the in-memory `LedgerState` is
unchanged: the entry sequence (hence `len()`) and `latest_hash()` are those
from before the call. -/
theorem append_error_leaves_state_unchanged (σ : Type) (eng : LedgerEngine σ)
    (record : Record) (records : List Record) (ctx : RequestContext) (nowMs nowSec : Nat) :
    ((eng.append_record record ctx nowMs nowSec).1.isOk = false →
      ((eng.append_record record ctx nowMs nowSec).2).state = eng.state ∧
      ((eng.append_record record ctx nowMs nowSec).2).len = eng.len ∧
      ((eng.append_record record ctx nowMs nowSec).2).latest_hash = eng.latest_hash) ∧
    ((eng.append_batch records ctx nowMs nowSec).1.isOk = false →
      ((eng.append_batch records ctx nowMs nowSec).2).state = eng.state ∧
      ((eng.append_batch records ctx nowMs nowSec).2).len = eng.len ∧
      ((eng.append_batch records ctx nowMs nowSec).2).latest_hash = eng.latest_hash) := by
  constructor
  · intro h
    have hs := append_record_error_keeps_state eng record ctx nowMs nowSec h
    exact ⟨hs, by simp [LedgerEngine.len, LedgerState.len, hs],
      by simp [LedgerEngine.latest_hash, hs]⟩
  · intro h
    have hs := append_batch_error_keeps_state eng records ctx nowMs nowSec h
    exact ⟨hs, by simp [LedgerEngine.len, LedgerState.len, hs],
      by simp [LedgerEngine.latest_hash, hs]⟩

def ctxW : RequestContext := ⟨"oid:onoal:system:test", 1, none⟩

def engW : LedgerEngine Unit := ⟨"test-ledger", LedgerState.new, [], none, none⟩

def wrBad : Record := ⟨"", "proofs", 1002, samplePayload, none⟩

/-- C2 witness: a batch of two valid records and one with an empty id fails,
and the engine still holds zero entries (spec §8.9). -/
theorem append_error_leaves_state_unchanged_witness :
    (engW.append_batch [rec1, rec3, wrBad] ctxW 1 1).1.isOk = false ∧
    ((engW.append_batch [rec1, rec3, wrBad] ctxW 1 1).2).state = engW.state ∧
    ((engW.append_batch [rec1, rec3, wrBad] ctxW 1 1).2).len = 0 :=
  ⟨rfl,
    ((append_error_leaves_state_unchanged Unit engW rec1 [rec1, rec3, wrBad] ctxW 1 1).2
      rfl).1,
    ((append_error_leaves_state_unchanged Unit engW rec1 [rec1, rec3, wrBad] ctxW 1 1).2
      rfl).2.1⟩

/-- C3: the SQLite backend binds the `created_at` ordering column to
`entry.record.timestamp`, a value embedded in the record.  Saving an entry
with timestamp 2000 and then one with timestamp 1000 makes
`load_all_entries` return them in timestamp order `[entryB, entryA]` — not
the append order `[entryA, entryB]` the claim (and §4.5) requires. -/
theorem sqlite_load_order_follows_record_timestamp :
    ((SqliteStorage.empty.save_entry entryA).save_entry entryB).load_all_entries =
      [entryB, entryA] ∧
    [entryB, entryA] ≠ [entryA, entryB] := by
  refine ⟨rfl, by decide⟩

def c4rank : String → Nat := fun s => if s = "proof" then 1 else 0

/-- C4: `ModuleRegistry` stores modules in a `HashMap` and `all_modules()`
iterates `self.modules.values()`.  HashMap iteration order is unspecified
and hasher-seed dependent; under the legal iteration order `c4rank` a
registry loaded from the config list `[proof, asset]` exposes its modules as
`[asset, proof]`, not in registration order. -/
theorem all_modules_hash_order_not_registration_order :
    (ModuleRegistry.load_from_config (ModuleRegistry.withLedgerId "test-ledger")
        [⟨"proof", "1.0.0", .obj []⟩, ⟨"asset", "1.0.0", .obj []⟩]).map
      (fun reg => (reg.all_modules c4rank).map RegModule.id) = .ok ["asset", "proof"] ∧
    ["asset", "proof"] ≠ ["proof", "asset"] := by
  refine ⟨rfl, by decide⟩

def c5acl : InMemoryAcl :=
  InMemoryAcl.empty.grantOp
    ⟨"oid:onoal:human:alice", "ledger:X", "write", "oid:onoal:system:admin", 1, none, none⟩

def c5eng : LedgerEngine Unit := ⟨"X", LedgerState.new, [], none, some c5acl⟩

def c5ctx : RequestContext := ⟨"oid:onoal:human:alice", 1, none⟩

/-- C5 counterexample: the grant key the claim says is checked —
`(requester, "ledger:X", "write")` — is present and unexpired, yet
`append_record` still denies: the code checks resource
`"oid:onoal:ledger:X"`, not `"ledger:X"`. -/
theorem append_record_checks_prefixed_resource :
    InMemoryAcl.check c5acl ⟨"oid:onoal:human:alice", "ledger:X", "write"⟩ 1 = .ok true ∧
    (c5eng.append_record rec1 c5ctx 1 1).1 =
      .error (.accessDenied "User oid:onoal:human:alice does not have write access") := by
  refine ⟨rfl, rfl⟩

/-- C5 (amended): with an ACL backend configured, `append_record` checks the
grant key `(requester_oid, "oid:onoal:ledger:\x7bengine_id\x7d", "write")`; if that
check denies, the call fails with the access-denied error and performs no
further side effects — the engine (state, storage, ACL) is returned exactly
as it was, for every module and storage behaviour. -/
theorem append_record_denied_no_side_effects (σ : Type) (eng : LedgerEngine σ)
    (acl : InMemoryAcl) (record : Record) (ctx : RequestContext) (nowMs nowSec : Nat)
    (hacl : eng.acl = some acl)
    (hctx : ctx.validate nowMs = .ok ())
    (hchk : acl.check ⟨ctx.requester_oid, "oid:onoal:ledger:" ++ eng.id, "write"⟩ nowSec =
      .ok false) :
    eng.append_record record ctx nowMs nowSec =
      (.error (.accessDenied ("User " ++ ctx.requester_oid ++
        " does not have write access")), eng) :=
  append_record_denied eng acl record ctx nowMs nowSec hacl hctx hchk

def c5engEmpty : LedgerEngine Unit := ⟨"X", LedgerState.new, [], none, some InMemoryAcl.empty⟩

/-- C5 witness: an engine whose ACL holds no grants denies a valid append
request and is returned unchanged. -/
theorem append_record_denied_no_side_effects_witness :
    c5engEmpty.append_record rec1 c5ctx 1 1 =
      (.error (.accessDenied "User oid:onoal:human:alice does not have write access"),
        c5engEmpty) :=
  append_record_denied_no_side_effects Unit c5engEmpty InMemoryAcl.empty rec1 c5ctx 1 1
    rfl rfl rfl

/-- C6 counterexample: two valid records whose timestamps decrease.  The
chain built by repeated `ChainEntry::new` starting from genesis is *not*
reported valid: the timestamp-monotonicity check fires, so the claim as
stated (valid for every list of valid records) is false. -/
theorem buildChain_decreasing_timestamps_invalid :
    (rec1.validate).isOk = true ∧ (rec2.validate).isOk = true ∧
    buildChain none [rec1, rec2] = .ok [entryA, entryB] ∧
    (verify_chain [entryA, entryB]).valid = false ∧
    (verify_chain [entryA, entryB]).timestamp_errors = 1 ∧
    (verify_chain [entryA, entryB]).entries_checked = 2 := by
  refine ⟨rfl, rfl, rfl, rfl, rfl, rfl⟩

/-- C6 (amended): for every list of valid records *with non-decreasing
timestamps*, the sequence built by repeated `ChainEntry::new(record_i,
prev_hash = hash_(i-1))` starting from a genesis entry makes `verify_chain`
report valid with zero errors and `entries_checked` equal to the sequence
length; the empty sequence is trivially valid (the `rs = []` instance). -/
theorem buildChain_verify_chain_valid (rs : List Record)
    (hval : ∀ r ∈ rs, (r.validate).isOk = true)
    (hts : tsOk none rs = true) :
    ∃ es, buildChain none rs = .ok es ∧
      verify_chain es =
        { valid := true, entries_checked := rs.length, errors := [],
          hash_mismatches := 0, chain_link_errors := 0, timestamp_errors := 0 } := by
  obtain ⟨es, hb, hlen, hgo⟩ :=
    buildChain_verifies rs none
      { valid := true, entries_checked := rs.length, errors := [],
        hash_mismatches := 0, chain_link_errors := 0, timestamp_errors := 0 }
      hval (by simpa using hts)
  refine ⟨es, by simpa using hb, ?_⟩
  unfold verify_chain
  rw [show ({ ChainVerificationResult.new with entries_checked := es.length } :
      ChainVerificationResult) =
    { valid := true, entries_checked := rs.length, errors := [],
      hash_mismatches := 0, chain_link_errors := 0, timestamp_errors := 0 } from by
    simp [ChainVerificationResult.new, hlen]]
  simpa using hgo

/-- C6 witness: two valid records with increasing timestamps build a chain
that verifies cleanly. -/
theorem buildChain_verify_chain_valid_witness :
    ∃ es, buildChain none [rec1, rec3] = .ok es ∧
      verify_chain es =
        { valid := true, entries_checked := 2, errors := [],
          hash_mismatches := 0, chain_link_errors := 0, timestamp_errors := 0 } :=
  buildChain_verify_chain_valid [rec1, rec3] (by decide) (by decide)

/-- C7: canonicalization is invariant under object-key order — deep-equal
values modulo key order serialize to identical bytes — and it is sensitive
to the presence of `meta`: the canonical bytes of a record with `meta`
differ from those of the otherwise-identical record without it, so adding
`meta` changes `compute_hash`. -/
theorem canonicalize_key_order_invariant_and_meta_sensitive :
    (∀ V1 V2 : Json, DeepEqualUpToKeyOrder V1 V2 →
      canonicalize_json V1 = canonicalize_json V2) ∧
    ∀ (r : Record) (m : Json),
      serialize_canonical { r with meta := some m } ≠
        serialize_canonical { r with meta := none } ∧
      compute_hash { r with meta := some m } ≠ compute_hash { r with meta := none } := by
  constructor
  · intro V1 V2 h
    calc canonicalize_json V1 = canonicalize_json (keySort V1) :=
          (canonicalize_json_keySort V1).symm
      _ = canonicalize_json (keySort V2) := by rw [h]
      _ = canonicalize_json V2 := canonicalize_json_keySort V2
  · intro r m
    have hlt := serialize_canonical_meta_longer r m
    refine ⟨ne_of_length_lt hlt, ?_⟩
    intro hh
    unfold compute_hash at hh
    injection hh with hs
    exact ne_of_length_lt hlt hs

def c7v1 : Json := .obj [("z", .num 1), ("a", .num 2), ("m", .arr [.str "x", .str "y"])]

def c7v2 : Json := .obj [("m", .arr [.str "x", .str "y"]), ("a", .num 2), ("z", .num 1)]

/-- C7 witness: two objects with permuted keys are deep-equal modulo key
order and canonicalize identically; adding `meta` to `rec1` changes its
canonical bytes. -/
theorem canonicalize_key_order_invariant_witness :
    DeepEqualUpToKeyOrder c7v1 c7v2 ∧
    canonicalize_json c7v1 = canonicalize_json c7v2 ∧
    serialize_canonical { rec1 with meta := some (.str "s") } ≠
      serialize_canonical { rec1 with meta := none } :=
  ⟨rfl, (canonicalize_key_order_invariant_and_meta_sensitive).1 c7v1 c7v2 rfl,
    ((canonicalize_key_order_invariant_and_meta_sensitive).2 rec1 (.str "s")).1⟩

/-- Grants whose colon-joined keys coincide: `(a, b:c, d)` produces the same
`make_key` string as the query `(a:b, c, d)`. -/
def collAcl : InMemoryAcl :=
  InMemoryAcl.empty.grantOp ⟨"a", "b:c", "d", "oid:onoal:system:admin", 1, none, none⟩

/-- C8 counterexample: `check` returns true for the triple `(a:b, c, d)`
although no grant with exactly that key (subject `a:b`, resource `c`,
action `d`) exists — the colon-joined key `"a:b:c:d"` collides with the
stored grant `(a, b:c, d)`.  "A grant with exactly that key exists" is
therefore not equivalent to what `check` tests. -/
theorem acl_check_key_collision :
    InMemoryAcl.check collAcl ⟨"a:b", "c", "d"⟩ 0 = .ok true ∧
    ∀ kv ∈ collAcl.grants,
      ¬(kv.2.subject_oid = "a:b" ∧ kv.2.resource_oid = "c" ∧ kv.2.action = "d") := by
  refine ⟨rfl, by decide⟩

/-- C8 (amended): grants are keyed by the colon-joined string
`subject:resource:action` (distinct triples whose joins coincide are
identified).  `check` returns `Ok(true)` iff a grant is stored under the
joined key of the query and its `expires_at` is absent or at least `now`; it
never returns an error.  `revoke` always succeeds, and revoking an absent
key leaves the grant map unchanged. -/
theorem acl_check_and_revoke_semantics (acl : InMemoryAcl) (p : CheckParams)
    (rp : RevokeParams) (now : Nat) :
    (acl.check p now = .ok true ↔
      ∃ g, lookupAssoc acl.grants
          (make_key p.requester_oid p.resource_oid p.action) = some g ∧
        (g.expires_at = none ∨ ∃ e, g.expires_at = some e ∧ now ≤ e)) ∧
    (acl.check p now).isOk = true ∧
    (acl.revoke rp).1 = .ok () ∧
    (lookupAssoc acl.grants (make_key rp.subject_oid rp.resource_oid rp.action) = none →
      ((acl.revoke rp).2).grants = acl.grants) := by
  refine ⟨?_, ?_, rfl, ?_⟩
  · unfold InMemoryAcl.check
    cases h : lookupAssoc acl.grants (make_key p.requester_oid p.resource_oid p.action) with
    | none => simp
    | some g =>
      cases hg : g.expires_at with
      | none => simp [hg]
      | some e2 =>
        simp only [hg]
        by_cases hlt : e2 < now
        · rw [if_pos hlt]
          constructor
          · intro hh
            simp at hh
          · rintro ⟨g2, hg2, hexp⟩
            injection hg2 with hg2e
            subst hg2e
            rcases hexp with hnone | ⟨e3, he3, hle⟩
            · rw [hg] at hnone
              exact absurd hnone (by simp)
            · rw [hg] at he3
              injection he3 with he3e
              omega
        · rw [if_neg hlt]
          simp only [true_iff]
          exact ⟨g, rfl, .inr ⟨e2, hg, by omega⟩⟩
  · unfold InMemoryAcl.check
    cases h : lookupAssoc acl.grants (make_key p.requester_oid p.resource_oid p.action) with
    | none => rfl
    | some g =>
      cases hg : g.expires_at with
      | none => simp [hg, Except.isOk, Except.toBool]
      | some e2 =>
        by_cases hlt : e2 < now <;> simp [hg, hlt, Except.isOk, Except.toBool]
  · intro hnone
    unfold InMemoryAcl.revoke
    simp [removeAssoc_of_none _ _ hnone]

def c8acl : InMemoryAcl :=
  InMemoryAcl.empty.grantOp
    ⟨"oid:onoal:human:alice", "oid:onoal:ledger:test", "write",
      "oid:onoal:system:admin", 1, none, none⟩

/-- C8 witness: the granted key checks true (no expiry) and revoking an
absent key is a no-op that still succeeds. -/
theorem acl_check_and_revoke_semantics_witness :
    InMemoryAcl.check c8acl
      ⟨"oid:onoal:human:alice", "oid:onoal:ledger:test", "write"⟩ 5 = .ok true ∧
    (c8acl.revoke ⟨"oid:onoal:human:bob", "oid:onoal:ledger:test", "write"⟩).1 = .ok () ∧
    ((c8acl.revoke ⟨"oid:onoal:human:bob", "oid:onoal:ledger:test", "write"⟩).2).grants =
      c8acl.grants :=
  ⟨(acl_check_and_revoke_semantics c8acl
      ⟨"oid:onoal:human:alice", "oid:onoal:ledger:test", "write"⟩
      ⟨"oid:onoal:human:bob", "oid:onoal:ledger:test", "write"⟩ 5).1.mpr
      ⟨_, rfl, .inl rfl⟩,
    (acl_check_and_revoke_semantics c8acl
      ⟨"oid:onoal:human:alice", "oid:onoal:ledger:test", "write"⟩
      ⟨"oid:onoal:human:bob", "oid:onoal:ledger:test", "write"⟩ 5).2.2.1,
    (acl_check_and_revoke_semantics c8acl
      ⟨"oid:onoal:human:alice", "oid:onoal:ledger:test", "write"⟩
      ⟨"oid:onoal:human:bob", "oid:onoal:ledger:test", "write"⟩ 5).2.2.2 rfl⟩

def engNoAcl : LedgerEngine Unit := ⟨"test-ledger", LedgerState.new, [], none, none⟩

/-- C9 counterexample: with `AclConfig::None`, `list_grants` does *not* fail
with a configuration error — it returns `Ok(vec![])`. -/
theorem list_grants_no_acl_returns_ok_empty :
    engNoAcl.list_grants "oid:onoal:human:alice" 0 = .ok [] := rfl

/-- C9 (amended): with `AclConfig::None`, `grant` and `revoke` fail with the
configuration error "ACL not enabled", `list_grants` returns `Ok` with an
empty list, and `check_access` returns `Ok(true)` for every input (no ACL
means everything is permitted). -/
theorem acl_ops_when_disabled (σ : Type) (eng : LedgerEngine σ) (h : eng.acl = none) :
    (∀ g, (eng.grant g).1 = .error (.configuration "ACL not enabled")) ∧
    (∀ rp, (eng.revoke rp).1 = .error (.configuration "ACL not enabled")) ∧
    (∀ s now, eng.list_grants s now = .ok []) ∧
    (∀ p now, eng.check_access p now = .ok true) := by
  refine ⟨fun g => ?_, fun rp => ?_, fun s now => ?_, fun p now => ?_⟩ <;>
    simp [LedgerEngine.grant, LedgerEngine.revoke, LedgerEngine.list_grants,
      LedgerEngine.check_access, h]

/-- C9 witness: the four operations on a concrete engine without ACL. -/
theorem acl_ops_when_disabled_witness :
    (engNoAcl.grant ⟨"a", "b", "c", "d", 1, none, none⟩).1 =
      .error (.configuration "ACL not enabled") ∧
    (engNoAcl.revoke ⟨"a", "b", "c"⟩).1 = .error (.configuration "ACL not enabled") ∧
    engNoAcl.list_grants "a" 7 = .ok [] ∧
    engNoAcl.check_access ⟨"a", "b", "c"⟩ 7 = .ok true :=
  ⟨(acl_ops_when_disabled Unit engNoAcl rfl).1 _,
    (acl_ops_when_disabled Unit engNoAcl rfl).2.1 _,
    (acl_ops_when_disabled Unit engNoAcl rfl).2.2.1 _ _,
    (acl_ops_when_disabled Unit engNoAcl rfl).2.2.2 _ _⟩

/-- C10: `stop_all` (which returns unit — it cannot return an error) leaves
no module in the `Started` state, under every HashMap iteration order: a
module that was `Started` is marked `Stopped` even when its `stop()` hook
returns an error (the result is only logged, and the transition is not
retried). -/
theorem stop_all_stops_every_started_module (reg : ModuleRegistry) (rank : String → Nat)
    (id : String) (hmem : containsKey reg.modules id = true) :
    ((reg.stop_all rank).get_state id ≠ some .Started) ∧
    (reg.get_state id = some .Started →
      (reg.stop_all rank).get_state id = some .Stopped) := by
  have hmem2 : id ∈ (hashIterate rank reg.modules).map Prod.fst :=
    (mem_keys_hashIterate rank reg.modules id).mpr ((containsKey_iff_mem _ _).mp hmem)
  unfold ModuleRegistry.stop_all ModuleRegistry.get_state
  rw [stopAllGo_lookup]
  cases h : lookupAssoc reg.meta id with
  | none => simp
  | some mm =>
    by_cases hs : mm.state = .Started
    · simp [hs, hmem2]
    · simp [hs]

/-- A module whose `stop` hook fails. -/
def stopFailMod : RegModule :=
  ⟨"m", "1.0.0", .ok (), .ok (), .error "stop failed", fun r => .ok r, fun _ _ => .ok ()⟩

def regW : ModuleRegistry :=
  ⟨[("m", stopFailMod)], [("m", ⟨"m", "1.0.0", .Started⟩)], "test-ledger"⟩

/-- C10 witness: a started module whose `stop` fails is still `Stopped`
after `stop_all`. -/
theorem stop_all_stops_every_started_module_witness :
    containsKey regW.modules "m" = true ∧
    regW.get_state "m" = some .Started ∧
    (regW.stop_all (fun _ => 0)).get_state "m" = some .Stopped ∧
    ((regW.stop_all (fun _ => 0)).get_state "m" ≠ some .Started) :=
  ⟨rfl, rfl,
    (stop_all_stops_every_started_module regW (fun _ => 0) "m" rfl).2 rfl,
    (stop_all_stops_every_started_module regW (fun _ => 0) "m" rfl).1⟩

end Nucleus



